import Mathlib

/-!
Shallow embedding of the worklog command-line tool (src/main.rs).

The program tracks work sessions in a JSON file.  A `Session` has a free-form
tag, a start timestamp (UNIX seconds, UTC) and an optional end timestamp
(absent while the session is running).  Commands: start, stop, status, reset,
log (manual hours), report (daily / weekly / monthly aggregation per tag).

Timestamps are embedded as `Int` (Rust i64), manual hours as `ℚ` (modelling
the real value of the f64 argument), and fallible commands as `Except`.
Calendar arithmetic mirrors what the chrono crate computes for
`DateTime<Utc>`: the proleptic Gregorian calendar with ISO-8601 week
numbering, with the chrono-representable date range made explicit because
`within_period` unwraps the timestamp conversion.
-/

namespace Worklog

/-! ## Calendar arithmetic (model of chrono date computations) -/

/-- Leap-year test of the proleptic Gregorian calendar. -/
def isLeap (y : Int) : Bool :=
  (y % 4 == 0 && y % 100 != 0) || y % 400 == 0

/-- Number of days from 1970-01-01 to the civil date y-m-d
(Gregorian, day counts may be negative).  This is the standard
days-from-civil algorithm used by civil-calendar libraries. -/
def daysFromCivil (y m d : Int) : Int :=
  let y2 : Int := if m ≤ 2 then y - 1 else y
  let era : Int := Int.fdiv y2 400
  let yoe : Int := y2 - era * 400
  let mp : Int := if m > 2 then m - 3 else m + 9
  let doy : Int := Int.fdiv (153 * mp + 2) 5 + d - 1
  let doe : Int := yoe * 365 + Int.fdiv yoe 4 - Int.fdiv yoe 100 + doy
  era * 146097 + doe - 719468

/-- Inverse of `daysFromCivil`: civil date (year, month, day) of a day
number counted from 1970-01-01. -/
def civilFromDays (z : Int) : Int × Int × Int :=
  let z2 : Int := z + 719468
  let era : Int := Int.fdiv z2 146097
  let doe : Int := z2 - era * 146097
  let yoe : Int := Int.fdiv (doe - Int.fdiv doe 1460 + Int.fdiv doe 36524 - Int.fdiv doe 146096) 365
  let y : Int := yoe + era * 400
  let doy : Int := doe - (365 * yoe + Int.fdiv yoe 4 - Int.fdiv yoe 100)
  let mp : Int := Int.fdiv (5 * doy + 2) 153
  let d : Int := doy - Int.fdiv (153 * mp + 2) 5 + 1
  let m : Int := if mp < 10 then mp + 3 else mp - 9
  (if m ≤ 2 then y + 1 else y, m, d)

/-- Day number (days since the epoch) of a UNIX timestamp: chrono floors
the division, so a timestamp just before midnight still belongs to its day. -/
def dayOfTs (ts : Int) : Int := Int.fdiv ts 86400

/-- Civil UTC date of a UNIX timestamp (what `dt.date_naive()` yields). -/
def dateOfTs (ts : Int) : Int × Int × Int := civilFromDays (dayOfTs ts)

/-- ISO weekday (Monday = 1 .. Sunday = 7) of a day number;
1970-01-01 (day 0) was a Thursday. -/
def weekdayOfDay (z : Int) : Int := (z + 3).emod 7 + 1

/-- Whether an ISO week-year has 53 weeks: exactly when January 1 falls on a
Thursday, or on a Wednesday in a leap year. -/
def isLongIsoYear (y : Int) : Bool :=
  weekdayOfDay (daysFromCivil y 1 1) == 4 ||
    (isLeap y && weekdayOfDay (daysFromCivil y 1 1) == 3)

/-- Number of ISO weeks in the ISO week-year y. -/
def weeksInIsoYear (y : Int) : Int := if isLongIsoYear y then 53 else 52

/-- ISO-8601 week-year and week number of a day number (what chrono's
`iso_week()` computes: `.year()` and `.week()`). -/
def isoWeekOfDay (z : Int) : Int × Int :=
  let ymd := civilFromDays z
  let y := ymd.1
  let ord : Int := z - daysFromCivil y 1 1 + 1
  let wd : Int := weekdayOfDay z
  let w : Int := Int.fdiv (ord - wd + 10) 7
  if w < 1 then (y - 1, weeksInIsoYear (y - 1))
  else if w > weeksInIsoYear y then (y + 1, 1)
  else (y, w)

/-- First day number representable by chrono: `NaiveDate::MIN` is
-262143-01-01 (MIN_YEAR = (i32::MIN >> 13) + 1). -/
def chronoMinDay : Int := daysFromCivil (-262143) 1 1

/-- Last day number representable by chrono: `NaiveDate::MAX` is
262142-12-31 (MAX_YEAR = (i32::MAX >> 13) - 1). -/
def chronoMaxDay : Int := daysFromCivil 262142 12 31

/-- Whether `Utc.timestamp_opt(ts, 0).single()` is `Some`: the timestamp's
day must lie in the chrono-representable date range. -/
def tsInRange (ts : Int) : Bool :=
  decide (chronoMinDay ≤ dayOfTs ts) && decide (dayOfTs ts ≤ chronoMaxDay)

/-- Model of `within_period(ts, period)` under the precondition that the
timestamp converts: period membership of ts relative to the current time
`now`, matching the three match arms of the source (same UTC calendar day /
same ISO week-year and week / same year and month), with false for any
other period string. -/
def within_period (ts : Int) (period : String) (now : Int) : Bool :=
  if period == "daily" then dateOfTs ts == dateOfTs now
  else if period == "weekly" then isoWeekOfDay (dayOfTs ts) == isoWeekOfDay (dayOfTs now)
  else if period == "monthly" then
    (dateOfTs ts).1 == (dateOfTs now).1 && (dateOfTs ts).2.1 == (dateOfTs now).2.1
  else false

/-- Model of the full `within_period` including the unconditional
`.single().unwrap()` on the timestamp conversion: `none` models the panic
on a timestamp outside the chrono-representable range. -/
def within_periodChecked (ts : Int) (period : String) (now : Int) : Option Bool :=
  if tsInRange ts then some (within_period ts period now) else none

/-! ## Data model and session store operations -/

/-- One tracked activity interval, as serialized to log.json:
tag, start timestamp, optional end timestamp (`none` = still running). -/
structure Session where
  tag : String
  start : Int
  «end» : Option Int
deriving Repr, DecidableEq

/-- Whether the session is the active (still running) one: `end.is_none()`. -/
def Session.isActive (s : Session) : Bool := s.«end».isNone

instance {ε α : Type} [DecidableEq ε] [DecidableEq α] : DecidableEq (Except ε α)
  | .error e1, .error e2 =>
    if h : e1 = e2 then .isTrue (by rw [h]) else .isFalse (by intro hc; cases hc; exact h rfl)
  | .error _, .ok _ => .isFalse (by intro hc; cases hc)
  | .ok _, .error _ => .isFalse (by intro hc; cases hc)
  | .ok a1, .ok a2 =>
    if h : a1 = a2 then .isTrue (by rw [h]) else .isFalse (by intro hc; cases hc; exact h rfl)

/-- Error outcomes of the store commands, as reported by the source. -/
inductive WErr where
  | AlreadyRunning
  | NoActiveSession
  | InvalidHours
deriving Repr, DecidableEq

/-- Model of `cmd_start`: refuse when some session is still running,
otherwise append a fresh running session starting now and persist.
(The endless timer display after the save is cosmetic and not modelled.) -/
def cmd_start (tag : String) (now : Int) (log : List Session) :
    Except WErr (List Session) :=
  if log.any fun s => s.«end».isNone then .error .AlreadyRunning
  else .ok (log ++ [⟨tag, now, none⟩])

/-- Helper for `cmd_stop`: find the first session with no end (the code
uses `iter_mut().find`), set its end to now, and also return the updated
session; `none` when every session is completed. -/
def setEndFirst (now : Int) : List Session → Option (List Session × Session)
  | [] => none
  | s :: rest =>
    if s.«end».isNone then some (⟨s.tag, s.start, some now⟩ :: rest, ⟨s.tag, s.start, some now⟩)
    else (setEndFirst now rest).map fun p => (s :: p.1, p.2)

/-- Model of `cmd_stop`: set `end = now` on the first running session and
persist, or fail with NoActiveSession. -/
def cmd_stop (now : Int) (log : List Session) :
    Except WErr (List Session × Session) :=
  match setEndFirst now log with
  | some p => .ok p
  | none => .error .NoActiveSession

/-- Helper for `cmd_reset`: remove the session at the first position whose
end is unset (the code uses `position` then `remove`), returning the
remaining log and the removed session. -/
def removeFirstActive : List Session → Option (List Session × Session)
  | [] => none
  | s :: rest =>
    if s.«end».isNone then some (rest, s)
    else (removeFirstActive rest).map fun p => (s :: p.1, p.2)

/-- Model of `cmd_reset`: discard the first running session and persist,
or fail with NoActiveSession. -/
def cmd_reset (log : List Session) : Except WErr (List Session × Session) :=
  match removeFirstActive log with
  | some p => .ok p
  | none => .error .NoActiveSession

/-- Rust `as i64` cast of a finite f64 value, away from the saturation
bounds: truncation toward zero. -/
def i64trunc (q : ℚ) : Int := if 0 ≤ q then Int.floor q else Int.ceil q

/-- Model of `cmd_log`: reject non-positive hours, otherwise append a
completed session ending now whose start is `now - (hours * 3600.0) as i64`
and persist. -/
def cmd_log (tag : String) (hours : ℚ) (now : Int) (log : List Session) :
    Except WErr (List Session) :=
  if hours ≤ 0 then .error .InvalidHours
  else .ok (log ++ [⟨tag, now - i64trunc (hours * 3600), some now⟩])

/-! ## Operation sequences over the store -/

/-- One invocation of a mutating command, with the wall-clock time it
observes. -/
inductive Op where
  | opStart (tag : String) (now : Int)
  | opStop (now : Int)
  | opReset
  | opLog (tag : String) (hours : ℚ) (now : Int)

/-- The stored log after running one command on it: a failing command
persists nothing, so the log is unchanged. -/
def applyOp (log : List Session) : Op → List Session
  | .opStart tag now =>
    match cmd_start tag now log with
    | .ok l => l
    | .error _ => log
  | .opStop now =>
    match cmd_stop now log with
    | .ok p => p.1
    | .error _ => log
  | .opReset =>
    match cmd_reset log with
    | .ok p => p.1
    | .error _ => log
  | .opLog tag hours now =>
    match cmd_log tag hours now log with
    | .ok l => l
    | .error _ => log

/-- Number of running sessions in the store. -/
def activeCount (log : List Session) : Nat :=
  log.countP fun s => s.«end».isNone

/-- The single-active-session invariant. -/
def Inv (log : List Session) : Prop := activeCount log ≤ 1

instance : DecidablePred Inv := fun log => by
  unfold Inv; infer_instance

/-! ## Report engine -/

/-- Model of `agg.entry(tag).or_insert(0) += dur` on the per-tag totals:
add to the existing entry for the tag, or create the entry with the
duration.  The HashMap is embedded as an association list with one entry
per key, in first-insertion order. -/
def bump : List (String × Int) → String → Int → List (String × Int)
  | [], tag, dur => [(tag, dur)]
  | (t, v) :: rest, tag, dur =>
    if tag = t then (t, v + dur) :: rest else (t, v) :: bump rest tag dur

/-- The aggregation loop of `cmd_report`: iterate over the completed
sessions; a session whose start or end (short-circuit `||`) lies in the
period contributes `end - start` seconds to its tag.  `none` models the
panic of `within_period` on an out-of-range timestamp. -/
def aggLoop (period : String) (now : Int) :
    List Session → List (String × Int) → Option (List (String × Int))
  | [], agg => some agg
  | s :: rest, agg =>
    match s.«end» with
    | none => aggLoop period now rest agg
    | some e =>
      (within_periodChecked s.start period now).bind fun b1 =>
        (if b1 then some true else within_periodChecked e period now).bind fun b =>
          aggLoop period now rest (if b then bump agg s.tag (e - s.start) else agg)

/-- Per-tag total seconds of the completed sessions falling in the period
(`none` models a panic during the scan). -/
def aggregate (log : List Session) (period : String) (now : Int) :
    Option (List (String × Int)) :=
  aggLoop period now log []

/-- Descending order on (tag, seconds) pairs used by
`pairs.sort_by(|a, b| b.1.cmp(&a.1))`. -/
def descBySecs (a b : String × Int) : Prop := b.2 ≤ a.2

instance : DecidableRel descBySecs := fun a b => by
  unfold descBySecs; infer_instance

instance : IsTotal (String × Int) descBySecs :=
  ⟨fun a b => le_total b.2 a.2⟩

instance : IsTrans (String × Int) descBySecs :=
  ⟨fun _ _ _ h1 h2 => le_trans h2 h1⟩

/-- Model of `cmd_report`: aggregate, report the explicit empty signal
(the "No completed sessions" message, inner `none`) when no tag has any
aggregated time, otherwise sort descending by total seconds and convert
each total to hours by dividing by 3600.0.  The outer `none` models a
panic. -/
def cmd_report (log : List Session) (period : String) (now : Int) :
    Option (Option (List (String × ℚ))) :=
  (aggregate log period now).map fun agg =>
    if agg.isEmpty then none
    else some (((List.insertionSort descBySecs agg).map fun p => (p.1, (p.2 : ℚ) / 3600)))

/-! ## Persistence (model of load_log / save_log at the JSON level) -/

/-- JSON values as relevant to the log file: serde_json values restricted
to the shapes the Session (de)serializer touches, with numbers that fit
i64. -/
inductive Json where
  | null : Json
  | num (n : Int) : Json
  | str (s : String) : Json
  | arr (items : List Json) : Json
  | obj (fields : List (String × Json)) : Json

/-- First value of a field in a JSON object body. -/
def jlookup : List (String × Json) → String → Option Json
  | [], _ => none
  | (k, v) :: rest, key => if key = k then some v else jlookup rest key

/-- Serde serialization of one Session (derived `Serialize`):
an object with the tag, start, and end fields, `end = None` as null. -/
def sessionToJson (s : Session) : Json :=
  .obj [("tag", .str s.tag), ("start", .num s.start),
        ("end", match s.«end» with | none => .null | some e => .num e)]

/-- Serde deserialization of one Session (derived `Deserialize`): the
object must carry a string tag and an i64 start; the optional end may be
null, an i64, or absent (serde defaults a missing Option field to None). -/
def sessionFromJson (j : Json) : Option Session :=
  match j with
  | .obj fields =>
    (match jlookup fields "tag" with | some (.str t) => some t | _ => none).bind fun tag =>
      (match jlookup fields "start" with | some (.num n) => some n | _ => none).bind fun start =>
        (match jlookup fields "end" with
         | some .null => some none
         | some (.num n) => some (some n)
         | none => some none
         | _ => none).map fun e => ⟨tag, start, e⟩
  | _ => none

/-- Deserialization of the log file body: a JSON array each of whose
elements parses as a Session. -/
def parseSessionItems : List Json → Option (List Session)
  | [] => some []
  | j :: rest =>
    match sessionFromJson j, parseSessionItems rest with
    | some s, some l => some (s :: l)
    | _, _ => none

/-- Model of `serde_json::from_str::<Vec<Session>>` at the JSON level. -/
def parseSessions (j : Json) : Option (List Session) :=
  match j with
  | .arr items => parseSessionItems items
  | _ => none

/-- Model of `serde_json::to_string_pretty` of the log at the JSON level. -/
def serializeSessions (log : List Session) : Json :=
  .arr (log.map sessionToJson)

/-- Model of `load_log`: an absent file (outer `none`) yields the empty
log; an existing file that fails to parse as a session array is silently
treated as empty (`unwrap_or_default`). -/
def load_log (file : Option Json) : List Session :=
  match file with
  | none => []
  | some j => (parseSessions j).getD []

/-- Model of `save_log`: the file afterwards holds the serialized log. -/
def save_log (log : List Session) : Option Json :=
  some (serializeSessions log)

/-! ## Spec-side formulations used to state the claims -/

/-- First-match lookup of a tag's total in the aggregation map, zero when
the tag is absent. -/
def getTotal : List (String × Int) → String → Int
  | [], _ => 0
  | (t, v) :: rest, tag => if tag = t then v else getTotal rest tag

/-- The spec's inclusion condition for `aggregate`: the session is
completed and its start or its end timestamp falls within the period. -/
def sessionQualifies (s : Session) (period : String) (now : Int) : Bool :=
  match s.«end» with
  | none => false
  | some e => within_period s.start period now || within_period e period now

/-- Duration of a completed session in whole seconds (zero for a running
session, which the aggregation never counts). -/
def durOf (s : Session) : Int :=
  match s.«end» with
  | some e => e - s.start
  | none => 0

/-- The spec's description of the aggregation result: the sum of the
durations of the qualifying sessions carrying the tag. -/
def specAggTotal (log : List Session) (period : String) (now : Int) (tag : String) : Int :=
  ((log.filter fun s => sessionQualifies s period now && (s.tag == tag)).map durOf).sum

/-- Descending order on the reported (tag, hours) rows. -/
def descByHours (a b : String × ℚ) : Prop := b.2 ≤ a.2

/-! ## Helper lemmas -/

lemma anyActive_iff (log : List Session) :
    (log.any fun s => s.«end».isNone) = true ↔ ∃ s ∈ log, s.«end» = none := by
  simp [List.any_eq_true, Option.isNone_iff_eq_none]

lemma anyActive_false (log : List Session) (h : ∀ s ∈ log, s.«end» ≠ none) :
    (log.any fun s => s.«end».isNone) = false := by
  rw [← Bool.not_eq_true, anyActive_iff]
  simp only [not_exists]
  intro s
  simp only [not_and]
  exact fun hs => h s hs

lemma within_periodChecked_eq_some {ts : Int} {period : String} {now : Int} {b : Bool}
    (h : within_periodChecked ts period now = some b) : b = within_period ts period now := by
  unfold within_periodChecked at h
  split at h
  · exact (Option.some.inj h).symm
  · exact absurd h (by simp)

lemma activeCount_nil : activeCount [] = 0 := rfl

lemma activeCount_cons (s : Session) (log : List Session) :
    activeCount (s :: log) = activeCount log + (if s.«end».isNone then 1 else 0) := by
  simp [activeCount, List.countP_cons]

lemma activeCount_append (l1 l2 : List Session) :
    activeCount (l1 ++ l2) = activeCount l1 + activeCount l2 := by
  simp [activeCount, List.countP_append]

lemma activeCount_pos_of_active {log : List Session} {s : Session}
    (hs : s ∈ log) (ha : s.«end» = none) : 0 < activeCount log := by
  unfold activeCount
  rw [List.countP_pos_iff]
  exact ⟨s, hs, by simp [ha]⟩

lemma setEndFirst_activeCount {now : Int} {log l : List Session} {s : Session}
    (h : setEndFirst now log = some (l, s)) : activeCount l + 1 = activeCount log := by
  induction log generalizing l s with
  | nil => simp [setEndFirst] at h
  | cons a rest ih =>
    unfold setEndFirst at h
    by_cases ha : a.«end».isNone
    · simp only [ha, if_pos] at h
      obtain ⟨hl, _⟩ := Prod.mk.injEq .. ▸ Option.some.inj h
      subst hl
      rw [activeCount_cons, activeCount_cons]
      simp [ha]
    · simp only [ha] at h
      cases hr : setEndFirst now rest with
      | none => rw [hr] at h; simp at h
      | some p =>
        rw [hr] at h
        simp only [Option.map_some'] at h
        obtain ⟨hl, hs⟩ := Prod.mk.injEq .. ▸ Option.some.inj h
        subst hl
        rw [activeCount_cons, activeCount_cons]
        have := ih (l := p.1) (s := p.2) (by rw [hr])
        omega

lemma removeFirstActive_activeCount {log l : List Session} {s : Session}
    (h : removeFirstActive log = some (l, s)) : activeCount l + 1 = activeCount log := by
  induction log generalizing l s with
  | nil => simp [removeFirstActive] at h
  | cons a rest ih =>
    unfold removeFirstActive at h
    by_cases ha : a.«end».isNone
    · simp only [ha, if_pos] at h
      obtain ⟨hl, _⟩ := Prod.mk.injEq .. ▸ Option.some.inj h
      subst hl
      rw [activeCount_cons]
      simp [ha]
    · simp only [ha] at h
      cases hr : removeFirstActive rest with
      | none => rw [hr] at h; simp at h
      | some p =>
        rw [hr] at h
        simp only [Option.map_some'] at h
        obtain ⟨hl, hs⟩ := Prod.mk.injEq .. ▸ Option.some.inj h
        subst hl
        rw [activeCount_cons, activeCount_cons]
        have := ih (l := p.1) (s := p.2) (by rw [hr])
        omega

lemma setEndFirst_all_completed {now : Int} {log : List Session}
    (h : ∀ s ∈ log, s.«end» ≠ none) : setEndFirst now log = none := by
  induction log with
  | nil => rfl
  | cons a rest ih =>
    have ha : ¬ a.«end».isNone := by
      simp [Option.isNone_iff_eq_none]
      exact h a (by simp)
    unfold setEndFirst
    rw [if_neg ha, ih fun s hs => h s (by simp [hs])]
    rfl

lemma setEndFirst_first {now : Int} (pre : List Session) (s : Session) (post : List Session)
    (hpre : ∀ u ∈ pre, u.«end» ≠ none) (hs : s.«end» = none) :
    setEndFirst now (pre ++ s :: post) =
      some (pre ++ ⟨s.tag, s.start, some now⟩ :: post, ⟨s.tag, s.start, some now⟩) := by
  induction pre with
  | nil =>
    simp only [List.nil_append]
    unfold setEndFirst
    rw [if_pos (by simp [hs])]
  | cons a rest ih =>
    have ha : ¬ a.«end».isNone := by
      simp [Option.isNone_iff_eq_none]
      exact hpre a (by simp)
    simp only [List.cons_append]
    unfold setEndFirst
    rw [if_neg ha, ih fun u hu => hpre u (by simp [hu])]
    rfl

lemma removeFirstActive_all_completed {log : List Session}
    (h : ∀ s ∈ log, s.«end» ≠ none) : removeFirstActive log = none := by
  induction log with
  | nil => rfl
  | cons a rest ih =>
    have ha : ¬ a.«end».isNone := by
      simp [Option.isNone_iff_eq_none]
      exact h a (by simp)
    unfold removeFirstActive
    rw [if_neg ha, ih fun s hs => h s (by simp [hs])]
    rfl

lemma removeFirstActive_first (pre : List Session) (s : Session) (post : List Session)
    (hpre : ∀ u ∈ pre, u.«end» ≠ none) (hs : s.«end» = none) :
    removeFirstActive (pre ++ s :: post) = some (pre ++ post, s) := by
  induction pre with
  | nil =>
    simp only [List.nil_append]
    unfold removeFirstActive
    rw [if_pos (by simp [hs])]
  | cons a rest ih =>
    have ha : ¬ a.«end».isNone := by
      simp [Option.isNone_iff_eq_none]
      exact hpre a (by simp)
    simp only [List.cons_append]
    unfold removeFirstActive
    rw [if_neg ha, ih fun u hu => hpre u (by simp [hu])]
    rfl

lemma sessionFromJson_toJson (s : Session) :
    sessionFromJson (sessionToJson s) = some s := by
  obtain ⟨tag, start, e⟩ := s
  cases e <;> rfl

lemma parseSessionItems_map (log : List Session) :
    parseSessionItems (log.map sessionToJson) = some log := by
  induction log with
  | nil => rfl
  | cons s rest ih =>
    simp only [List.map_cons]
    unfold parseSessionItems
    rw [sessionFromJson_toJson, ih]

/-! ## Claims -/

/-- Claim C4 fails as stated: with `hours = 1/10000` the appended session
has `start = now = end` (the truncated duration is 0 seconds), refuting
`start < end`; and with `hours = 9999/10000` the code truncates
`hours * 3600 = 3599.64` to 3599 instead of rounding it to 3600, so the
appended start is `now - 3599`, not `now - round(hours * 3600)`. -/
theorem C4_log_manual_counterexample :
    (cmd_log "x" (1/10000 : ℚ) 0 [] = .ok [⟨"x", 0, some 0⟩] ∧ ¬ ((0 : Int) < (0 : Int)))
    ∧ (cmd_log "x" (9999/10000 : ℚ) 0 [] = .ok [⟨"x", -3599, some 0⟩]
       ∧ (-3599 : Int) ≠ 0 - 3600) := by
  have h1 : i64trunc ((1/10000 : ℚ) * 3600) = 0 := by
    unfold i64trunc
    rw [if_pos (by norm_num)]
    rw [show ((1/10000 : ℚ) * 3600) = 9/25 by norm_num]
    rw [Int.floor_eq_zero_iff]
    constructor <;> norm_num
  have h2 : i64trunc ((9999/10000 : ℚ) * 3600) = 3599 := by
    unfold i64trunc
    rw [if_pos (by norm_num)]
    rw [show ((9999/10000 : ℚ) * 3600) = 89991/25 by norm_num]
    rw [Int.floor_eq_iff]
    constructor <;> norm_num
  refine ⟨⟨?_, by decide⟩, ⟨?_, by decide⟩⟩
  · unfold cmd_log
    rw [if_neg (by norm_num : ¬ ((1/10000 : ℚ) ≤ 0)), h1]
    decide
  · unfold cmd_log
    rw [if_neg (by norm_num : ¬ ((9999/10000 : ℚ) ≤ 0)), h2]
    decide

/-- Claim C4 (amended): for every tag and hours value, log_manual fails
with InvalidHours exactly when hours ≤ 0, leaving the store unchanged;
otherwise it appends a completed session with end = now and
start = now - trunc(hours * 3600) seconds, so that start ≤ end. -/
theorem C4_log_manual_amended (tag : String) (hours : ℚ) (now : Int) (log : List Session) :
    (hours ≤ 0 →
      cmd_log tag hours now log = .error .InvalidHours
      ∧ applyOp log (.opLog tag hours now) = log)
    ∧ (0 < hours →
      cmd_log tag hours now log = .ok (log ++ [⟨tag, now - i64trunc (hours * 3600), some now⟩])
      ∧ now - i64trunc (hours * 3600) ≤ now) := by
  constructor
  · intro h
    exact ⟨by simp [cmd_log, h], by simp [applyOp, cmd_log, h]⟩
  · intro h
    have hn : ¬ hours ≤ 0 := not_le.mpr h
    refine ⟨by simp [cmd_log, hn], ?_⟩
    have h0 : (0 : ℚ) ≤ hours * 3600 := by positivity
    have htr : 0 ≤ i64trunc (hours * 3600) := by
      unfold i64trunc
      rw [if_pos h0]
      exact Int.le_floor.mpr (by exact_mod_cast h0)
    omega

/-- Concrete instantiation of the amended C4: hours = -1 is rejected with
the store untouched, and hours = 5/2 appends a 9000-second completed
session ending now. -/
theorem C4_log_manual_witness :
    cmd_log "x" (-1 : ℚ) 0 [] = .error .InvalidHours
    ∧ cmd_log "x" (5/2 : ℚ) 100 [] = .ok [⟨"x", 100 - i64trunc ((5/2 : ℚ) * 3600), some 100⟩] :=
  ⟨((C4_log_manual_amended "x" (-1) 0 []).1 (by norm_num)).1,
   by
    have := ((C4_log_manual_amended "x" (5/2) 100 []).2 (by norm_num)).1
    simpa using this⟩

/-- Claim C6: a second start on a store with an active session always
fails with AlreadyRunning and leaves the store unchanged; on a store with
no active session, start appends a new running session starting now. -/
theorem C6_start_behavior (tag : String) (now : Int) (log : List Session) :
    ((∃ s ∈ log, s.«end» = none) →
      cmd_start tag now log = .error .AlreadyRunning ∧ applyOp log (.opStart tag now) = log)
    ∧ ((∀ s ∈ log, s.«end» ≠ none) →
      cmd_start tag now log = .ok (log ++ [⟨tag, now, none⟩]))
    ∧ (∀ tag2 now2 log2, cmd_start tag now log = .ok log2 →
      cmd_start tag2 now2 log2 = .error .AlreadyRunning
      ∧ applyOp log2 (.opStart tag2 now2) = log2) := by
  refine ⟨?_, ?_, ?_⟩
  · intro h
    have ha := (anyActive_iff log).mpr h
    exact ⟨by simp [cmd_start, ha], by simp [applyOp, cmd_start, ha]⟩
  · intro h
    have ha := anyActive_false log h
    simp [cmd_start, ha]
  · intro tag2 now2 log2 h
    cases ha : (log.any fun s => s.«end».isNone) with
    | true => simp [cmd_start, ha] at h
    | false =>
      simp only [cmd_start, ha, Bool.false_eq_true, if_false, Except.ok.injEq] at h
      subst h
      have hb : ((log ++ [(⟨tag, now, none⟩ : Session)]).any fun s => s.«end».isNone) = true := by
        simp
      exact ⟨by simp [cmd_start, hb], by simp [applyOp, cmd_start, hb]⟩

/-- Concrete instantiation of C6: starting on a store whose one session is
still running fails and changes nothing; starting on a store of completed
sessions appends the new running session; a start immediately after a
successful start fails. -/
theorem C6_start_witness :
    cmd_start "b" 7 [⟨"a", 0, none⟩] = .error .AlreadyRunning
    ∧ cmd_start "b" 7 [⟨"a", 0, some 5⟩] = .ok [⟨"a", 0, some 5⟩, ⟨"b", 7, none⟩]
    ∧ cmd_start "c" 9 [⟨"a", 0, some 5⟩, ⟨"b", 7, none⟩] = .error .AlreadyRunning :=
  ⟨((C6_start_behavior "b" 7 [⟨"a", 0, none⟩]).1 ⟨⟨"a", 0, none⟩, by simp, rfl⟩).1,
   by
    have := (C6_start_behavior "b" 7 [⟨"a", 0, some 5⟩]).2.1 (by decide)
    simpa using this,
   ((C6_start_behavior "b" 7 [⟨"a", 0, some 5⟩]).2.2 "c" 9 _ (by decide)).1⟩

/-- Claim C7: reset on a store with no active session fails with
NoActiveSession and changes nothing; with an active session it removes
exactly that session, and in particular reset right after a successful
start returns the store to exactly its pre-start sessions. -/
theorem C7_reset_behavior (log : List Session) :
    ((∀ s ∈ log, s.«end» ≠ none) →
      cmd_reset log = .error .NoActiveSession ∧ applyOp log .opReset = log)
    ∧ (∀ pre s post, (∀ u ∈ pre, u.«end» ≠ none) → s.«end» = none →
      cmd_reset (pre ++ s :: post) = .ok (pre ++ post, s))
    ∧ (∀ tag now log2, cmd_start tag now log = .ok log2 →
      cmd_reset log2 = .ok (log, ⟨tag, now, none⟩)) := by
  refine ⟨?_, ?_, ?_⟩
  · intro h
    have hr := removeFirstActive_all_completed h
    exact ⟨by simp [cmd_reset, hr], by simp [applyOp, cmd_reset, hr]⟩
  · intro pre s post hpre hs
    have hr := removeFirstActive_first pre s post hpre hs
    simp [cmd_reset, hr]
  · intro tag now log2 h
    cases ha : (log.any fun s => s.«end».isNone) with
    | true => simp [cmd_start, ha] at h
    | false =>
      simp only [cmd_start, ha, Bool.false_eq_true, if_false, Except.ok.injEq] at h
      subst h
      have hall : ∀ u ∈ log, u.«end» ≠ none := by
        intro u hu he
        have : (log.any fun s => s.«end».isNone) = true :=
          (anyActive_iff log).mpr ⟨u, hu, he⟩
        rw [ha] at this
        exact Bool.false_ne_true this
      have hr := removeFirstActive_first log ⟨tag, now, none⟩ [] hall rfl
      simp only [List.append_nil] at hr
      simp [cmd_reset, hr]

/-- Concrete instantiation of C7: reset fails on an all-completed store
and undoes a successful start exactly. -/
theorem C7_reset_witness :
    cmd_reset [⟨"a", 0, some 5⟩] = .error .NoActiveSession
    ∧ cmd_reset [⟨"a", 0, some 5⟩, ⟨"b", 7, none⟩] = .ok ([⟨"a", 0, some 5⟩], ⟨"b", 7, none⟩) :=
  ⟨((C7_reset_behavior [⟨"a", 0, some 5⟩]).1 (by decide)).1,
   (C7_reset_behavior [⟨"a", 0, some 5⟩]).2.2 "b" 7 _ (by decide)⟩

/-- Claim C8: load returns the empty sequence when the file is absent,
and also silently returns the empty sequence when the file exists but
does not parse as a JSON array of sessions, instead of surfacing a
CorruptData error. -/
theorem C8_load_silent_discard :
    load_log none = []
    ∧ (∀ j, parseSessions j = none → load_log (some j) = [])
    ∧ parseSessions (.str "oops") = none
    ∧ load_log (some (.str "oops")) = [] := by
  refine ⟨rfl, ?_, rfl, rfl⟩
  intro j h
  simp [load_log, h]

/-- Concrete instantiation of C8: a corrupt (non-array) file body loads
as the empty session list. -/
theorem C8_load_silent_discard_witness :
    parseSessions (Json.str "oops") = none ∧ load_log (some (Json.str "oops")) = [] :=
  ⟨rfl, C8_load_silent_discard.2.1 (Json.str "oops") rfl⟩

/-- Claim C9: serialization round-trips: parsing the serialized session
list returns exactly the same sessions (tag, start, end unchanged), so
save(load()) reproduces an equivalent JSON array. -/
theorem C9_save_load_roundtrip (log : List Session) :
    parseSessions (serializeSessions log) = some log
    ∧ load_log (save_log log) = log := by
  have h : parseSessions (serializeSessions log) = some log := by
    unfold serializeSessions parseSessions
    exact parseSessionItems_map log
  exact ⟨h, by simp [load_log, save_log, h]⟩

/-- Claim C10: within_period is defined exactly on timestamps inside the
chrono-representable date range (the unconditional unwrap panics outside
it), and a report over a stored session with an out-of-range timestamp
panics instead of returning a result. -/
theorem C10_within_period_panic :
    (∀ ts period now, (within_periodChecked ts period now).isSome = tsInRange ts)
    ∧ cmd_report [⟨"x", 86400 * (chronoMaxDay + 1), some (86400 * (chronoMaxDay + 1))⟩]
        "daily" 0 = none := by
  constructor
  · intro ts period now
    unfold within_periodChecked
    by_cases h : tsInRange ts <;> simp [h]
  · decide

lemma activeCount_eq_zero_of_any_false {log : List Session}
    (ha : (log.any fun s => s.«end».isNone) = false) : activeCount log = 0 := by
  unfold activeCount
  rw [List.countP_eq_zero]
  intro s hs
  have := List.any_eq_false.mp ha s hs
  simpa using this

lemma applyOp_preserves_Inv (log : List Session) (op : Op) (h : Inv log) :
    Inv (applyOp log op) := by
  cases op with
  | opStart tag now =>
    unfold applyOp cmd_start
    cases ha : (log.any fun s => s.«end».isNone) with
    | true => simpa using h
    | false =>
      simp only [Bool.false_eq_true, if_false]
      unfold Inv
      rw [activeCount_append, activeCount_eq_zero_of_any_false ha]
      simp [activeCount, List.countP_cons]
  | opStop now =>
    have heq : applyOp log (.opStop now) =
        match setEndFirst now log with
        | some p => p.1
        | none => log := by
      show (match cmd_stop now log with
            | Except.ok p => p.1
            | Except.error _ => log) =
          match setEndFirst now log with
          | some p => p.1
          | none => log
      unfold cmd_stop
      cases setEndFirst now log <;> rfl
    rw [heq]
    cases hr : setEndFirst now log with
    | none => exact h
    | some p =>
      obtain ⟨l, s⟩ := p
      have hc := @setEndFirst_activeCount now log l s hr
      unfold Inv at h
      show activeCount l ≤ 1
      omega
  | opReset =>
    have heq : applyOp log .opReset =
        match removeFirstActive log with
        | some p => p.1
        | none => log := by
      show (match cmd_reset log with
            | Except.ok p => p.1
            | Except.error _ => log) =
          match removeFirstActive log with
          | some p => p.1
          | none => log
      unfold cmd_reset
      cases removeFirstActive log <;> rfl
    rw [heq]
    cases hr : removeFirstActive log with
    | none => exact h
    | some p =>
      obtain ⟨l, s⟩ := p
      have hc := @removeFirstActive_activeCount log l s hr
      unfold Inv at h
      show activeCount l ≤ 1
      omega
  | opLog tag hours now =>
    unfold applyOp cmd_log
    by_cases hh : hours ≤ 0
    · simpa [hh] using h
    · simp only [hh, if_false]
      unfold Inv at h ⊢
      rw [activeCount_append]
      simpa [activeCount, List.countP_cons] using h

/-- Claim C1: every sequence of start / stop / reset / log_manual
operations preserves the single-active-session invariant: starting from a
store with at most one running session, the store still has at most one
running session afterwards. -/
theorem C1_single_active_invariant (ops : List Op) (log : List Session) (h : Inv log) :
    Inv (ops.foldl applyOp log) := by
  induction ops generalizing log with
  | nil => exact h
  | cons op rest ih => exact ih (applyOp log op) (applyOp_preserves_Inv log op h)

/-- Concrete instantiation of C1: a five-operation run from the empty
store keeps at most one session running. -/
theorem C1_single_active_invariant_witness :
    Inv []
    ∧ Inv ([Op.opStart "a" 0, Op.opStop 5, Op.opLog "b" 2 10, Op.opStart "c" 20,
        Op.opReset].foldl applyOp []) :=
  ⟨by decide, C1_single_active_invariant _ [] (by decide)⟩

/-- Claim C5: stop on a store where every session is completed fails with
NoActiveSession and changes nothing; on a store satisfying the invariant
whose active session is s, stop sets end = now on exactly that session,
keeping every other session and every other field unchanged, and returns
the stopped session. -/
theorem C5_stop_behavior (now : Int) (log : List Session) :
    ((∀ s ∈ log, s.«end» ≠ none) →
      cmd_stop now log = .error .NoActiveSession ∧ applyOp log (.opStop now) = log)
    ∧ (∀ pre s post, Inv log → log = pre ++ s :: post → s.«end» = none →
      cmd_stop now log =
        .ok (pre ++ ⟨s.tag, s.start, some now⟩ :: post, ⟨s.tag, s.start, some now⟩)) := by
  constructor
  · intro h
    have hr := @setEndFirst_all_completed now log h
    exact ⟨by simp [cmd_stop, hr], by simp [applyOp, cmd_stop, hr]⟩
  · intro pre s post hinv hlog hs
    have hpre : ∀ u ∈ pre, u.«end» ≠ none := by
      intro u hu he
      have h1 : 0 < activeCount pre := activeCount_pos_of_active hu he
      have h2 : 0 < activeCount (s :: post) :=
        activeCount_pos_of_active (List.mem_cons_self s post) hs
      have h3 : activeCount log = activeCount pre + activeCount (s :: post) := by
        rw [hlog, activeCount_append]
      unfold Inv at hinv
      omega
    have hr := @setEndFirst_first now pre s post hpre hs
    rw [hlog]
    simp [cmd_stop, hr]

/-- Concrete instantiation of C5: stop fails on an all-completed store,
and stops the unique running session on a two-session store. -/
theorem C5_stop_behavior_witness :
    cmd_stop 20 [⟨"a", 0, some 5⟩] = .error .NoActiveSession
    ∧ cmd_stop 20 [⟨"a", 0, some 5⟩, ⟨"b", 10, none⟩] =
        .ok ([⟨"a", 0, some 5⟩, ⟨"b", 10, some 20⟩], ⟨"b", 10, some 20⟩) :=
  ⟨((C5_stop_behavior 20 [⟨"a", 0, some 5⟩]).1 (by decide)).1,
   (C5_stop_behavior 20 [⟨"a", 0, some 5⟩, ⟨"b", 10, none⟩]).2
     [⟨"a", 0, some 5⟩] ⟨"b", 10, none⟩ [] (by decide) rfl rfl⟩

lemma getTotal_bump (agg : List (String × Int)) (tag : String) (dur : Int) (t : String) :
    getTotal (bump agg tag dur) t = getTotal agg t + (if (tag == t) = true then dur else 0) := by
  induction agg with
  | nil =>
    unfold bump getTotal
    by_cases h : t = tag
    · rw [if_pos h, if_pos (by simp [h]), zero_add]
    · rw [if_neg h, if_neg (by simp only [beq_iff_eq]; exact fun he => h he.symm)]
      rfl
  | cons p rest ih =>
    obtain ⟨t1, v⟩ := p
    unfold bump
    by_cases h1 : tag = t1
    · subst h1
      rw [if_pos rfl]
      unfold getTotal
      by_cases h2 : t = tag
      · rw [if_pos h2, if_pos h2, if_pos (by simp [h2])]
      · rw [if_neg h2, if_neg h2,
          if_neg (by simp only [beq_iff_eq]; exact fun he => h2 he.symm), add_zero]
    · rw [if_neg h1]
      unfold getTotal
      by_cases h2 : t = t1
      · rw [if_pos h2, if_pos h2,
          if_neg (by simp only [beq_iff_eq]; exact fun he => h1 (he.trans h2)), add_zero]
      · rw [if_neg h2, if_neg h2, ih]

lemma specAggTotal_cons (s : Session) (rest : List Session) (period : String) (now : Int)
    (t : String) :
    specAggTotal (s :: rest) period now t =
      (if (sessionQualifies s period now && (s.tag == t)) = true then durOf s else 0)
        + specAggTotal rest period now t := by
  unfold specAggTotal
  rw [List.filter_cons]
  by_cases h : (sessionQualifies s period now && (s.tag == t)) = true
  · rw [if_pos h, if_pos h, List.map_cons, List.sum_cons]
  · rw [if_neg h, if_neg h, zero_add]

lemma aggLoop_getTotal (period : String) (now : Int) (sessions : List Session) :
    ∀ (agg out : List (String × Int)),
      aggLoop period now sessions agg = some out →
      ∀ t, getTotal out t = getTotal agg t + specAggTotal sessions period now t := by
  induction sessions with
  | nil =>
    intro agg out h t
    cases h
    simp [specAggTotal]
  | cons s rest ih =>
    intro agg out h t
    unfold aggLoop at h
    cases he : s.«end» with
    | none =>
      rw [he] at h
      have hq : sessionQualifies s period now = false := by
        simp [sessionQualifies, he]
      rw [specAggTotal_cons, hq]
      simpa using ih agg out h t
    | some e =>
      rw [he] at h
      cases h1 : within_periodChecked s.start period now with
      | none => rw [h1] at h; simp at h
      | some b1 =>
        rw [h1] at h
        simp only [Option.some_bind] at h
        have hb1 := within_periodChecked_eq_some h1
        cases b1 with
        | true =>
          rw [if_pos rfl] at h
          simp only [Option.some_bind, if_pos rfl] at h
          have hq : sessionQualifies s period now = true := by
            simp [sessionQualifies, he, ← hb1]
          have hdur : durOf s = e - s.start := by simp [durOf, he]
          rw [specAggTotal_cons, hq, hdur]
          have hrec := ih (bump agg s.tag (e - s.start)) out h t
          rw [hrec, getTotal_bump]
          simp only [Bool.true_and]
          ring
        | false =>
          rw [if_neg (by simp)] at h
          cases h2 : within_periodChecked e period now with
          | none => rw [h2] at h; simp at h
          | some b2 =>
            rw [h2] at h
            simp only [Option.some_bind] at h
            have hb2 := within_periodChecked_eq_some h2
            have hq : sessionQualifies s period now = b2 := by
              simp [sessionQualifies, he, ← hb1, ← hb2]
            cases b2 with
            | true =>
              rw [if_pos rfl] at h
              have hdur : durOf s = e - s.start := by simp [durOf, he]
              rw [specAggTotal_cons, hq, hdur]
              have hrec := ih (bump agg s.tag (e - s.start)) out h t
              rw [hrec, getTotal_bump]
              simp only [Bool.true_and]
              ring
            | false =>
              rw [if_neg (by simp)] at h
              rw [specAggTotal_cons, hq]
              simpa using ih agg out h t

/-- Claim C2: for every period among daily, weekly and monthly, the
aggregation considers only sessions with end set, includes a completed
session exactly when its start or its end timestamp falls within the
period, and sums durations end - start in whole seconds per tag; a
session spanning a daily boundary is credited in the reports of both
adjacent days. -/
theorem C2_aggregate_characterization :
    (∀ (log : List Session) (period : String) (now : Int) (agg : List (String × Int)),
      (period = "daily" ∨ period = "weekly" ∨ period = "monthly") →
      aggregate log period now = some agg →
      ∀ t, getTotal agg t = specAggTotal log period now t)
    ∧ aggregate [⟨"x", 8639999, some 8640000⟩] "daily" 8639999 = some [("x", 1)]
    ∧ aggregate [⟨"x", 8639999, some 8640000⟩] "daily" 8640000 = some [("x", 1)] := by
  refine ⟨?_, by decide, by decide⟩
  intro log period now agg _ h t
  have := aggLoop_getTotal period now log [] agg h t
  simpa [getTotal] using this

/-- Concrete instantiation of C2: on a two-session daily store the
aggregated totals match the spec formula for both tags, and a running
session is ignored. -/
theorem C2_aggregate_characterization_witness :
    aggregate [⟨"a", 1700006400, some 1700010000⟩, ⟨"b", 1700006400, some 1700008200⟩,
        ⟨"c", 1700006400, none⟩] "daily" 1700006400 = some [("a", 3600), ("b", 1800)]
    ∧ getTotal [("a", 3600), ("b", 1800)] "a" =
        specAggTotal [⟨"a", 1700006400, some 1700010000⟩, ⟨"b", 1700006400, some 1700008200⟩,
          ⟨"c", 1700006400, none⟩] "daily" 1700006400 "a" :=
  ⟨by decide,
   C2_aggregate_characterization.1
     [⟨"a", 1700006400, some 1700010000⟩, ⟨"b", 1700006400, some 1700008200⟩,
       ⟨"c", 1700006400, none⟩] "daily" 1700006400 [("a", 3600), ("b", 1800)]
     (Or.inl rfl) (by decide) "a"⟩

lemma report_example_eval :
    cmd_report [⟨"a", 1700006400, some 1700010000⟩, ⟨"b", 1700006400, some 1700008200⟩]
      "daily" 1700006400 = some (some [("a", 1), ("b", (1 : ℚ)/2)]) := by
  have hagg : aggregate [⟨"a", 1700006400, some 1700010000⟩, ⟨"b", 1700006400, some 1700008200⟩]
      "daily" 1700006400 = some [("a", 3600), ("b", 1800)] := by decide
  unfold cmd_report
  rw [hagg]
  simp only [Option.map_some']
  rw [if_neg (by simp)]
  have hsort : List.insertionSort descBySecs [("a", (3600 : Int)), ("b", 1800)]
      = [("a", 3600), ("b", 1800)] := by
    simp only [List.insertionSort, List.orderedInsert]
    rw [if_pos (by unfold descBySecs; norm_num)]
  rw [hsort]
  simp only [List.map_cons, List.map_nil]
  norm_num

/-- Claim C3: whenever report produces rows, each tag's row holds its
aggregated seconds divided by 3600 as hours, the rows are ordered by
descending total, and the report is the explicit empty signal exactly
when no tag has any aggregated time; the two-session daily example
yields [(a, 1.0), (b, 0.5)]. -/
theorem C3_report_behavior (log : List Session) (period : String) (now : Int) :
    (∀ r, cmd_report log period now = some (some r) →
      List.Pairwise descByHours r ∧
      ∃ agg, aggregate log period now = some agg ∧ agg ≠ [] ∧
        r = (List.insertionSort descBySecs agg).map (fun p => (p.1, (p.2 : ℚ) / 3600)) ∧
        List.Perm r (agg.map fun p => (p.1, (p.2 : ℚ) / 3600)))
    ∧ (cmd_report log period now = some none ↔ aggregate log period now = some [])
    ∧ cmd_report [⟨"a", 1700006400, some 1700010000⟩, ⟨"b", 1700006400, some 1700008200⟩]
        "daily" 1700006400 = some (some [("a", 1), ("b", (1 : ℚ)/2)]) := by
  refine ⟨?_, ?_, report_example_eval⟩
  · intro r h
    unfold cmd_report at h
    cases ha : aggregate log period now with
    | none => rw [ha] at h; simp at h
    | some agg =>
      rw [ha] at h
      simp only [Option.map_some'] at h
      cases agg with
      | nil => simp at h
      | cons p rest =>
        rw [if_neg (by simp)] at h
        have hr : r = (List.insertionSort descBySecs (p :: rest)).map
            fun q => (q.1, (q.2 : ℚ) / 3600) :=
          (Option.some.inj (Option.some.inj h)).symm
        constructor
        · rw [hr, List.pairwise_map]
          refine List.Pairwise.imp ?_ (List.sorted_insertionSort descBySecs (p :: rest))
          intro a b hab
          unfold descBySecs at hab
          unfold descByHours
          exact (div_le_div_iff_of_pos_right (by norm_num : (0:ℚ) < 3600)).mpr (by exact_mod_cast hab)
        · refine ⟨p :: rest, rfl, by simp, hr, ?_⟩
          rw [hr]
          exact List.Perm.map _ (List.perm_insertionSort descBySecs (p :: rest))
  · cases ha : aggregate log period now with
    | none =>
      constructor
      · intro h; rw [cmd_report, ha] at h; simp at h
      · intro h; simp at h
    | some agg =>
      cases agg with
      | nil =>
        constructor
        · intro _; rfl
        · intro _
          rw [cmd_report, ha]
          rfl
      | cons p rest =>
        constructor
        · intro h
          rw [cmd_report, ha] at h
          simp only [Option.map_some'] at h
          rw [if_neg (by simp)] at h
          simp at h
        · intro h
          simp at h

/-- Concrete instantiation of C3: the two-session daily report evaluates
to [(a, 1), (b, 1/2)] and that row list is in descending order. -/
theorem C3_report_behavior_witness :
    cmd_report [⟨"a", 1700006400, some 1700010000⟩, ⟨"b", 1700006400, some 1700008200⟩]
        "daily" 1700006400 = some (some [("a", 1), ("b", (1 : ℚ)/2)])
    ∧ List.Pairwise descByHours [("a", (1 : ℚ)), ("b", (1 : ℚ)/2)] :=
  ⟨report_example_eval,
   ((C3_report_behavior [⟨"a", 1700006400, some 1700010000⟩, ⟨"b", 1700006400, some 1700008200⟩]
      "daily" 1700006400).1 [("a", 1), ("b", (1 : ℚ)/2)] report_example_eval).1⟩

end Worklog
